import Mathlib

/-!
Verification development for the milli document-indexing core.

The definitions below are shallow embeddings of the Rust sources:
  * `src/milli/src/update/word_prefix_docids.rs` (WordPrefixDocids::execute;
    bare line references in the doc comments of those definitions are to this
    file),
  * `src/milli/src/update/index_documents/mod.rs`, cited as mod.rs
    (IndexDocuments::{add_documents, execute, execute_raw,
    execute_prefix_databases}),
  * `src/milli/src/update/clear_documents.rs` (ClearDocuments::execute),
  * `src/milli/src/error.rs` (the From<HeedError> / From<io::Error>
    conversions).

Words (byte strings of the LMDB tables) are modelled as `List Char`, roaring
bitmaps as `Finset ℕ`.  A posting table is modelled as a function from keys to
bitmaps where the empty bitmap stands for an absent key, together with an
explicit finite support where needed.  The Transform stage and a few helpers
whose sources are not part of the repository snippet are modelled from the
spec; each such definition says so in its doc comment.  Definitions come
first, the lemmas and theorems follow.
-/

abbrev Word : Type := List Char

abbrev Bitmap : Type := Finset ℕ

/-- The loop state of the word iteration (lines 59-84): the retained prefix
group `current_prefixes`, the `prefixes_cache`, and the contents of
`prefix_docids_sorter`. -/
structure PrefixCacheState where
  cur : Option (List Word)
  cache : Word → Bitmap
  sorter : Word → Bitmap

/-- The initial loop state: no current group, empty cache, empty sorter. -/
def emptyPCS : PrefixCacheState :=
  ⟨none, fun _ => ∅, fun _ => ∅⟩

/-- Model of `write_prefixes_in_sorter` (lines 120-131): every cached value is
inserted into the sorter (whose entries merge by union) and the cache is
drained. -/
def flushCache (s : PrefixCacheState) : PrefixCacheState :=
  ⟨s.cur, fun _ => ∅, fun k => s.sorter k ∪ s.cache k⟩

/-- The representative of a prefix group, `prefixes[0]` in the source. -/
def groupHead (g : List Word) : Word :=
  g.headI

/-- Model of `common_prefix_fst_words.iter().find(|prefixes| word.starts_with(&prefixes[0]))`
(lines 66-68). -/
def findGroup (common : List (List Word)) (w : Word) : Option (List Word) :=
  common.find? fun g => (groupHead g).isPrefixOf w

/-- Model of lines 62-70: keep the current group while the word starts with its
first prefix, otherwise flush the cache into the sorter and locate the next
group. -/
def selectGroup (common : List (List Word)) (s : PrefixCacheState) (w : Word) :
    PrefixCacheState :=
  match s.cur with
  | some prefixes =>
      if (groupHead prefixes).isPrefixOf w then s
      else { flushCache s with cur := findGroup common w }
  | none => { flushCache s with cur := findGroup common w }

/-- Model of the inner loop of lines 72-83: for every prefix of the current
group that the word starts with, push the word's data into the cache. -/
def cacheAdd (prefixes : List Word) (w : Word) (d : Bitmap) (c : Word → Bitmap) :
    Word → Bitmap :=
  fun k => if k ∈ prefixes ∧ k.isPrefixOf w then c k ∪ d else c k

/-- Model of lines 72-83 including the `if let Some` guard. -/
def insertIntoCache (s : PrefixCacheState) (w : Word) (d : Bitmap) :
    PrefixCacheState :=
  match s.cur with
  | some prefixes => { s with cache := cacheAdd prefixes w d s.cache }
  | none => s

/-- One iteration of the `while let Some((word, data))` loop (lines 61-84). -/
def stepWord (common : List (List Word)) (s : PrefixCacheState) (w : Word)
    (d : Bitmap) : PrefixCacheState :=
  insertIntoCache (selectGroup common s w) w d

/-- The whole word loop over the merged `new_word_docids` stream. -/
def runWords (common : List (List Word)) :
    List (Word × Bitmap) → PrefixCacheState → PrefixCacheState
  | [], s => s
  | (w, d) :: rest, s => runWords common rest (stepWord common s w d)

/-- Contents of `prefix_docids_sorter` after the word loop and the final
`write_prefixes_in_sorter` call of line 86. -/
def loopSorter (common : List (List Word)) (batch : List (Word × Bitmap)) :
    Word → Bitmap :=
  (flushCache (runWords common batch emptyPCS)).sorter

/-- Union of the values the merged stream carries for words starting with `p`. -/
def batchCoveredUnion (batch : List (Word × Bitmap)) (p : Word) : Bitmap :=
  batch.foldr (fun wd acc => if p.isPrefixOf wd.1 then wd.2 ∪ acc else acc) ∅

/-- Union of the values the merged stream carries for the exact word `w`. -/
def batchLookup (batch : List (Word × Bitmap)) (w : Word) : Bitmap :=
  batch.foldr (fun wd acc => if wd.1 = w then wd.2 ∪ acc else acc) ∅

/-- Union of `f` over the words of the support `words` starting with `p`;
this is what `word_docids.prefix_iter` collects at `p` (lines 89-96) when
`words` is the key set of the table represented by `f`. -/
def coveredUnion (words : Finset Word) (f : Word → Bitmap) (p : Word) : Bitmap :=
  (words.filter fun w => p.isPrefixOf w).sup f

/-- Model of lines 88-96: for every newly added prefix, every entry of the
`word_docids` table under that prefix is inserted into the sorter keyed by the
prefix. -/
def newPrefixesPass (newPrefixes : List Word) (words : Finset Word)
    (wd : Word → Bitmap) (sorter : Word → Bitmap) : Word → Bitmap :=
  match newPrefixes with
  | [] => sorter
  | q :: rest =>
      newPrefixesPass rest words wd
        (fun k => if k = q then sorter k ∪ coveredUnion words wd q else sorter k)

/-- Model of lines 98-104: every key of the target table that belongs to the
deleted-prefixes set is removed. -/
def deletePass (tbl : Word → Bitmap) (delPrefixes : Finset Word) :
    Word → Bitmap :=
  fun k => if k ∈ delPrefixes then ∅ else tbl k

/-- Modelled from the spec: `sorter_into_lmdb_database` (from the
`index_documents::helpers` module, which is not part of the provided sources)
drains the sorter into the target table "using the type-appropriate merge
function (bitmap union for docids)", merging with existing entries. -/
def sorterIntoLmdbDatabase (tbl sorter : Word → Bitmap) : Word → Bitmap :=
  fun k => tbl k ∪ sorter k

/-- Model of `WordPrefixDocids::execute` (lines 36-117): build the sorter from
the common-prefix word loop and the new-prefix table scan, delete the removed
prefixes from the target table, then drain the sorter into it. -/
def wordPrefixDocidsExecute (tbl : Word → Bitmap)
    (newWordDocids : List (Word × Bitmap)) (newPrefixes : List Word)
    (common : List (List Word)) (delPrefixes : Finset Word)
    (words : Finset Word) (wd : Word → Bitmap) : Word → Bitmap :=
  sorterIntoLmdbDatabase (deletePass tbl delPrefixes)
    (newPrefixesPass newPrefixes words wd (loopSorter common newWordDocids))

/-- Everything accumulated into the sorter or still pending in the cache. -/
def unionAt (s : PrefixCacheState) (p : Word) : Bitmap :=
  s.sorter p ∪ s.cache p

/-- The current group, when set, is one of the common-prefix groups. -/
def curOk (common : List (List Word)) (s : PrefixCacheState) : Prop :=
  ∀ g, s.cur = some g → g ∈ common

/-- Support of the sample word-docids table: the two words "ab" and "bc". -/
def c1Words : Finset Word := {['a', 'b'], ['b', 'c']}

/-- The sample word-docids table before the batch: "ab" ↦ {1}. -/
def c1OldWd : Word → Bitmap := fun w => if w = ['a', 'b'] then {1} else ∅

/-- The sample merged new_word_docids stream of the batch. -/
def c1Batch : List (Word × Bitmap) := [(['a', 'b'], {2}), (['b', 'c'], {3})]

/-- The sample word-docids table after the typed-chunk merge. -/
def c1Wd : Word → Bitmap := fun w => c1OldWd w ∪ batchLookup c1Batch w

/-- The sample word-prefix-docids table before the update: "a" ↦ {1}. -/
def c1Tbl : Word → Bitmap := fun q => if q = ['a'] then {1} else ∅

/-- The previous words-prefixes FST: just the prefix "a". -/
def c1Prev : Finset Word := {['a']}

/-- The current words-prefixes FST: the prefixes "a" and "b". -/
def c1Cur : Finset Word := {['a'], ['b']}

/-- The stages of one indexing batch that are visible in
`IndexDocuments::execute`, `execute_raw` and `execute_prefix_databases`. -/
inductive IndexingStage
  | transform
  | extraction
  | typedChunkWrite
  | faceting
  | wordsPrefixesFstBuild
  | wordPrefixDocidsUpdate
  | wordPrefixPairProximityUpdate
  | wordPrefixPositionUpdate
deriving DecidableEq

/-- Order of the operations of `IndexDocuments::execute_prefix_databases`
(mod.rs lines 356-491): the `Facets` builder executes first (lines 369-379),
then the `WordsPrefixesFst` rebuild (lines 387-398), then `WordPrefixDocids`
(lines 427-438), `WordPrefixPairProximityDocids` (lines 446-457) and
`WordPrefixPositionDocids` (lines 465-482). -/
def executePrefixDatabasesStages : List IndexingStage :=
  [.faceting, .wordsPrefixesFstBuild, .wordPrefixDocidsUpdate,
    .wordPrefixPairProximityUpdate, .wordPrefixPositionUpdate]

/-- Order of the operations of `IndexDocuments::execute` and `execute_raw`
(mod.rs lines 141-354): the `Transform` output is drained first (lines
147-151), then the extraction pipeline runs (lines 230-267), then the typed
chunks received on the channel are written (lines 292-333), and finally
`execute_prefix_databases` runs (line 347). -/
def executeStages : List IndexingStage :=
  [.transform, .extraction, .typedChunkWrite] ++ executePrefixDatabasesStages

/-- An LMDB posting table, a list of byte-keyed entries. -/
abbrev Table : Type := List (List ℕ × List ℕ)

/-- The Index state touched by ClearDocuments: the thirteen databases of the
`Index` destructuring of clear_documents.rs lines 18-34, plus the main-database
entries accessed through the put/delete helpers, the fields-id map and the
faceted-fields setting (both stored in the main database and read via
`fields_ids_map` / `faceted_fields_ids`). -/
structure Index where
  wordDocids : Table
  wordPrefixDocidsTable : Table
  docidWordPositions : Table
  wordPairProximityDocids : Table
  wordPrefixPairProximityDocids : Table
  wordPositionDocids : Table
  fieldIdWordCountDocids : Table
  wordPrefixPositionDocids : Table
  facetIdF64Docids : Table
  facetIdStringDocids : Table
  fieldIdDocidFacetF64s : Table
  fieldIdDocidFacetStrings : Table
  documents : Table
  wordsFst : Finset Word
  wordsPrefixesFst : Finset Word
  externalDocumentsIds : List (List ℕ × ℕ)
  documentsIds : Finset ℕ
  fieldDistribution : List (String × ℕ)
  geoRtree : Option (List (Int × Int × ℕ))
  geoFacetedDocumentsIds : Option Bitmap
  numberFacetedDocumentsIds : ℕ → Bitmap
  stringFacetedDocumentsIds : ℕ → Bitmap
  fieldsIdsMap : List (String × ℕ)
  facetedFields : Finset ℕ
  updatedAt : ℕ

/-- Modelled from the spec: `Index::number_of_documents` is not part of the
provided sources; invariant 6 of the spec states that it equals the
cardinality of the documents-ids bitmap after every commit. -/
def indexNumberOfDocuments (i : Index) : ℕ :=
  i.documentsIds.card

/-- Model of `ClearDocuments::execute` (clear_documents.rs lines 16-72): set
the updated-at stamp, read the document count, reset the main-database
entries, clear the per-field faceted-documents bitmaps of the faceted fields,
clear the thirteen databases, and return the count read before the clear. -/
def clearDocumentsExecute (now : ℕ) (i : Index) : ℕ × Index :=
  let numberOfDocuments := indexNumberOfDocuments i
  (numberOfDocuments,
    { i with
        updatedAt := now
        wordsFst := ∅
        wordsPrefixesFst := ∅
        externalDocumentsIds := []
        documentsIds := ∅
        fieldDistribution := []
        geoRtree := none
        geoFacetedDocumentsIds := none
        numberFacetedDocumentsIds := fun f =>
          if f ∈ i.facetedFields then ∅ else i.numberFacetedDocumentsIds f
        stringFacetedDocumentsIds := fun f =>
          if f ∈ i.facetedFields then ∅ else i.stringFacetedDocumentsIds f
        wordDocids := []
        wordPrefixDocidsTable := []
        docidWordPositions := []
        wordPairProximityDocids := []
        wordPrefixPairProximityDocids := []
        wordPositionDocids := []
        fieldIdWordCountDocids := []
        wordPrefixPositionDocids := []
        facetIdF64Docids := []
        facetIdStringDocids := []
        fieldIdDocidFacetF64s := []
        fieldIdDocidFacetStrings := []
        documents := [] })

/-- A small concrete index used to instantiate the ClearDocuments theorem. -/
def sampleIndex : Index where
  wordDocids := [([107], [1])]
  wordPrefixDocidsTable := [([107], [1])]
  docidWordPositions := []
  wordPairProximityDocids := []
  wordPrefixPairProximityDocids := []
  wordPositionDocids := []
  fieldIdWordCountDocids := []
  wordPrefixPositionDocids := []
  facetIdF64Docids := []
  facetIdStringDocids := []
  fieldIdDocidFacetF64s := []
  fieldIdDocidFacetStrings := []
  documents := [([0], [107])]
  wordsFst := {['k']}
  wordsPrefixesFst := ∅
  externalDocumentsIds := [([49], 0)]
  documentsIds := {0, 1, 2}
  fieldDistribution := [("name", 3)]
  geoRtree := some [(12, 42, 2)]
  geoFacetedDocumentsIds := some {2}
  numberFacetedDocumentsIds := fun f => if f = 2 then {0, 1} else ∅
  stringFacetedDocumentsIds := fun f => if f = 2 then {0} else ∅
  fieldsIdsMap := [("id", 0), ("name", 1), ("age", 2), ("country", 3), ("_geo", 4)]
  facetedFields := {2, 4}
  updatedAt := 0

/-- An incoming document: an external id and its flattened field map. -/
structure SimpleDoc where
  externalId : String
  fields : List (String × String)
deriving DecidableEq

/-- The replace/update modes of IndexDocumentsMethod (mod.rs lines 45-55). -/
inductive IndexDocumentsMethod
  | replaceDocuments
  | updateDocuments
deriving DecidableEq

/-- The slice of index state touched by document addition. -/
structure IndexState where
  externalIds : List (String × ℕ)
  documentsIds : Finset ℕ
  documents : ℕ → Option (List (String × String))

/-- Modelled from the spec: `number_of_documents` equals the cardinality of
the documents-ids bitmap (invariant 6). -/
def stateNumberOfDocuments (s : IndexState) : ℕ :=
  s.documentsIds.card

/-- Modelled from the spec: when a batch contains multiple documents with the
same primary-key value, the last occurrence wins and intermediate ones never
receive an internal id. -/
def dedupBatch : List SimpleDoc → List SimpleDoc
  | [] => []
  | d :: ds =>
      if ds.any fun e => e.externalId == d.externalId then dedupBatch ds
      else d :: dedupBatch ds

/-- Modelled from the spec: the next unused internal id starts from
`max(existing) + 1` (zero on an empty index) and ids are assigned densely. -/
def firstFreeId (used : Finset ℕ) : ℕ :=
  used.sup (· + 1)

/-- Modelled from the spec: in Update mode the new field values are merged
over the old document record, new values winning per field. -/
def mergeFields (old new : List (String × String)) : List (String × String) :=
  (old.filter fun kv => ! new.any fun nv => nv.1 == kv.1) ++ new

/-- The output of the Transform stage (spec, section 4.2, step 5). -/
structure TransformOutputS where
  newDocumentsIds : Finset ℕ
  replacedDocumentsIds : Finset ℕ
  externalDocumentsIds : List (String × ℕ)
  records : List (ℕ × List (String × String))
  documentsCount : ℕ

/-- Accumulator of the Transform document loop. -/
structure TransformAcc where
  externalIds : List (String × ℕ)
  newIds : Finset ℕ
  replacedIds : Finset ℕ
  records : List (ℕ × List (String × String))
  nextId : ℕ

/-- Modelled from the spec (section 4.2, steps 3-4): a known external id
records the old internal id in the replaced set and reuses it (discarding the
old record in Replace mode, merging in Update mode); an unknown external id is
assigned the next unused internal id. -/
def transformStep (mode : IndexDocumentsMethod)
    (docs : ℕ → Option (List (String × String))) (acc : TransformAcc)
    (d : SimpleDoc) : TransformAcc :=
  match List.lookup d.externalId acc.externalIds with
  | some i =>
      let record :=
        match mode with
        | .replaceDocuments => d.fields
        | .updateDocuments =>
            match docs i with
            | some old => mergeFields old d.fields
            | none => d.fields
      { acc with
          replacedIds := insert i acc.replacedIds
          records := acc.records ++ [(i, record)] }
  | none =>
      { externalIds := (d.externalId, acc.nextId) :: acc.externalIds
        newIds := insert acc.nextId acc.newIds
        replacedIds := acc.replacedIds
        records := acc.records ++ [(acc.nextId, d.fields)]
        nextId := acc.nextId + 1 }

/-- The Transform document loop. -/
def transformRun (mode : IndexDocumentsMethod)
    (docs : ℕ → Option (List (String × String))) :
    List SimpleDoc → TransformAcc → TransformAcc
  | [], acc => acc
  | d :: ds, acc => transformRun mode docs ds (transformStep mode docs acc d)

/-- Modelled from the spec: the whole Transform stage over one batch. -/
def transformBatch (mode : IndexDocumentsMethod) (s : IndexState)
    (batch : List SimpleDoc) : TransformOutputS :=
  let deduped := dedupBatch batch
  let acc := transformRun mode s.documents deduped
    ⟨s.externalIds, ∅, ∅, [], firstFreeId s.documentsIds⟩
  ⟨acc.newIds, acc.replacedIds, acc.externalIds, acc.records, deduped.length⟩

/-- Model of mod.rs lines 269-277: the documents this addition replaces are
deleted (DeleteDocuments on the replaced ids) before the new records are
installed. -/
def deleteDocumentsPass (docs : ℕ → Option (List (String × String)))
    (ids : Finset ℕ) : ℕ → Option (List (String × String)) :=
  fun j => if j ∈ ids then none else docs j

/-- Installing the transformed document records into the documents table. -/
def installRecords (docs : ℕ → Option (List (String × String)))
    (records : List (ℕ × List (String × String))) :
    ℕ → Option (List (String × String)) :=
  records.foldl (fun ds r => fun j => if j = r.1 then some r.2 else ds j) docs

/-- Model of `IndexDocuments::execute_raw` restricted to document/identifier
state (mod.rs lines 160-354): delete the replaced documents when there are
any, install the new records, store the new external-documents-ids map, put
`index_documents_ids | new_documents_ids | replaced_documents_ids` as the
documents-ids bitmap and return its cardinality. -/
def executeRawS (s : IndexState) (out : TransformOutputS) : ℕ × IndexState :=
  let docs :=
    if out.replacedDocumentsIds = ∅ then s.documents
    else deleteDocumentsPass s.documents out.replacedDocumentsIds
  let docs := installRecords docs out.records
  let allIds := s.documentsIds ∪ out.newDocumentsIds ∪ out.replacedDocumentsIds
  (allIds.card, ⟨out.externalDocumentsIds, allIds, docs⟩)

/-- One full document-addition batch. -/
def applyBatch (mode : IndexDocumentsMethod) (s : IndexState)
    (batch : List SimpleDoc) : IndexState :=
  (executeRawS s (transformBatch mode s batch)).2

/-- The index state after inserting documents 1, 2 and 3 into an empty index
in Replace mode (scenario A of the spec). -/
def c4State : IndexState :=
  applyBatch .replaceDocuments ⟨[], ∅, fun _ => none⟩
    [⟨"1", [("name", "kevin")]⟩, ⟨"2", [("name", "kevina")]⟩,
      ⟨"3", [("name", "benoit")]⟩]

/-- The builder state of `IndexDocuments`: the documents added so far and the
running `added_documents` counter (mod.rs lines 63-71). -/
structure DocumentsBuilder where
  mode : IndexDocumentsMethod
  addedDocuments : ℕ
  pending : List SimpleDoc

/-- Model of `IndexDocuments::add_documents` (mod.rs lines 120-139): an empty
reader returns zero immediately; otherwise the documents are read into the
transform (`read_documents` is not part of the provided sources; modelled
from the spec, it returns the number of documents read) and the counter is
increased by that number. -/
def addDocuments (b : DocumentsBuilder) (reader : List SimpleDoc) :
    DocumentsBuilder × ℕ :=
  if reader.isEmpty then (b, 0)
  else
    let indexed := reader.length
    ({ b with
        addedDocuments := b.addedDocuments + indexed
        pending := b.pending ++ reader },
      indexed)

/-- Model of `IndexDocuments::execute` (mod.rs lines 141-156): when
`added_documents` is zero the index is untouched and the result is
`{ indexed_documents := 0, number_of_documents := current count }`; otherwise
the transform output is drained and `execute_raw` runs. -/
def builderExecute (b : DocumentsBuilder) (s : IndexState) :
    (ℕ × ℕ) × IndexState :=
  if b.addedDocuments = 0 then ((0, stateNumberOfDocuments s), s)
  else
    let out := transformBatch b.mode s b.pending
    let r := executeRawS s out
    ((out.documentsCount, r.1), r.2)

/-- Model of the writer loop `for result in lmdb_writer_rx` (mod.rs lines
292-333): each received message is `result?`-checked, so the first `Err`
message is returned at once and no further typed chunk is installed; `Ok`
chunks are written into the index state one by one. -/
def drainChannel {S E C : Type} (install : S → C → S) (st : S) :
    List (Except E C) → Except E S
  | [] => Except.ok st
  | Except.error e :: _ => Except.error e
  | Except.ok c :: rest => drainChannel install (install st c) rest

/-- Model of the extraction side (mod.rs lines 246-267): a failed extraction
sends one single `Err` message on the channel; a successful one sends its
chunks as `Ok` messages. -/
def extractionMessages {E C : Type} : Except E (List C) → List (Except E C)
  | Except.ok cs => cs.map Except.ok
  | Except.error e => [Except.error e]

/-- A representative subset of the LMDB-level error type matched by
`From<HeedError> for Error` (error.rs lines 120-138). -/
inductive MdbError
  | mapFull
  | invalid
  | notFound
  | corrupted
  | panicked
  | badTxn
deriving DecidableEq

/-- The kinds of io::Error relevant to the claims. -/
inductive IoErrorKind
  | noSpaceLeftOnDevice
  | notFound
  | permissionDenied
  | interrupted
deriving DecidableEq

/-- The store-facing error type of heed (error.rs line 6 imports). -/
inductive HeedError
  | io (e : IoErrorKind)
  | mdb (e : MdbError)
  | encoding
  | decoding
  | invalidDatabaseTyping
  | databaseClosing
deriving DecidableEq

/-- The user-error variants of error.rs lines 56-75 that the claims name. -/
inductive MilliUserError
  | attributeLimitReached
  | documentLimitReached
  | invalidDocumentId
  | invalidStoreFile
  | maxDatabaseSizeReached
  | missingPrimaryKey
  | noSpaceLeftOnDevice
deriving DecidableEq

/-- The internal-error variants of error.rs lines 26-40 that the claims name. -/
inductive MilliInternalError
  | databaseClosing
  | invalidDatabaseTyping
  | serializationEncoding
  | serializationDecoding
  | store (e : MdbError)
deriving DecidableEq

/-- The top-level error type of error.rs lines 18-23. -/
inductive MilliError
  | internalError (e : MilliInternalError)
  | ioError (e : IoErrorKind)
  | userError (e : MilliUserError)
deriving DecidableEq

/-- Model of `impl From<io::Error> for Error` (error.rs lines 77-82): every
io error is wrapped verbatim as `Error::IoError`. -/
def errorFromIo (e : IoErrorKind) : MilliError :=
  MilliError.ioError e

/-- Model of `impl From<HeedError> for Error` (error.rs lines 120-138). -/
def errorFromHeed : HeedError → MilliError
  | .io e => errorFromIo e
  | .mdb .mapFull => .userError .maxDatabaseSizeReached
  | .mdb .invalid => .userError .invalidStoreFile
  | .mdb e => .internalError (.store e)
  | .encoding => .internalError .serializationEncoding
  | .decoding => .internalError .serializationDecoding
  | .invalidDatabaseTyping => .internalError .invalidDatabaseTyping
  | .databaseClosing => .internalError .databaseClosing

/-- Model of the `geo_field_id` computation of `execute_raw` (mod.rs lines
214-226): the geo field id passed to extraction is set only when the `_geo`
field exists in the fields-id map and is declared sortable or filterable. -/
def geoFieldIdOf (fieldsIdsMap : List (String × ℕ))
    (sortableFields filterableFields : Finset ℕ) : Option ℕ :=
  match List.lookup "_geo" fieldsIdsMap with
  | some gfid =>
      if gfid ∈ sortableFields ∨ gfid ∈ filterableFields then some gfid
      else none
  | none => none

/-- Modelled from the spec: the extraction stage (the `extract` module is not
part of the provided sources) "emits the point" only for a document carrying
a valid `_geo` value under the optional geo field id; with no geo field id it
emits nothing. -/
def extractGeoPoint (geoFieldId : Option ℕ) (doc : List (ℕ × String)) :
    Option (ℕ × String) :=
  match geoFieldId with
  | none => none
  | some gfid => (List.lookup gfid doc).map fun v => (gfid, v)



lemma prefixOf_iff {p w : Word} : p.isPrefixOf w = true ↔ p <+: w :=
  List.isPrefixOf_iff_prefix

lemma unionAt_selectGroup (common : List (List Word)) (s : PrefixCacheState)
    (w p : Word) : unionAt (selectGroup common s w) p = unionAt s p := by
  obtain ⟨c, ca, so⟩ := s
  cases c with
  | none => simp [selectGroup, unionAt, flushCache]
  | some prefixes =>
      simp only [selectGroup]
      split
      · rfl
      · simp [unionAt, flushCache]

lemma selectGroup_cur_none (common : List (List Word)) (s : PrefixCacheState)
    (w : Word) (h : (selectGroup common s w).cur = none) :
    ∀ g ∈ common, ¬ (groupHead g).isPrefixOf w := by
  intro g hg
  obtain ⟨c, ca, so⟩ := s
  cases c with
  | none =>
      simp only [selectGroup, flushCache, findGroup] at h
      exact List.find?_eq_none.mp h g hg
  | some prefixes =>
      simp only [selectGroup] at h
      split at h
      · exact absurd h (by simp)
      · simp only [flushCache, findGroup] at h
        exact List.find?_eq_none.mp h g hg

lemma selectGroup_cur_some (common : List (List Word)) (s : PrefixCacheState)
    (w : Word) (g : List Word) (hcur : curOk common s)
    (h : (selectGroup common s w).cur = some g) :
    g ∈ common ∧ (groupHead g).isPrefixOf w := by
  obtain ⟨c, ca, so⟩ := s
  cases c with
  | none =>
      simp only [selectGroup, flushCache, findGroup] at h
      exact ⟨List.mem_of_find?_eq_some h, by simpa using List.find?_some h⟩
  | some prefixes =>
      simp only [selectGroup] at h
      split at h
      · rename_i hkeep
        have hg : g = prefixes := by simpa using h.symm
        subst hg
        exact ⟨hcur g rfl, hkeep⟩
      · simp only [flushCache, findGroup] at h
        exact ⟨List.mem_of_find?_eq_some h, by simpa using List.find?_some h⟩

lemma insertIntoCache_cur (s : PrefixCacheState) (w : Word) (d : Bitmap) :
    (insertIntoCache s w d).cur = s.cur := by
  obtain ⟨c, ca, so⟩ := s
  cases c <;> rfl

lemma unionAt_insertIntoCache_none (s : PrefixCacheState) (w p : Word)
    (d : Bitmap) (h : s.cur = none) :
    unionAt (insertIntoCache s w d) p = unionAt s p := by
  obtain ⟨c, ca, so⟩ := s
  cases h
  rfl

lemma unionAt_insertIntoCache_some (s : PrefixCacheState) (w p : Word)
    (d : Bitmap) (g : List Word) (h : s.cur = some g) :
    unionAt (insertIntoCache s w d) p =
      unionAt s p ∪ if p ∈ g ∧ p.isPrefixOf w then d else ∅ := by
  obtain ⟨c, ca, so⟩ := s
  cases h
  simp only [insertIntoCache, unionAt, cacheAdd]
  split
  · rw [Finset.union_assoc]
  · rw [Finset.union_empty]

lemma stepWord_curOk (common : List (List Word)) (s : PrefixCacheState)
    (w : Word) (d : Bitmap) (hcur : curOk common s) :
    curOk common (stepWord common s w d) := by
  intro g hg
  rw [stepWord, insertIntoCache_cur] at hg
  exact (selectGroup_cur_some common s w g hcur hg).1

lemma unionAt_stepWord (common : List (List Word))
    (hhead : ∀ g ∈ common, ∀ q ∈ g, groupHead g <+: q)
    (hsep : ∀ g₁ ∈ common, ∀ g₂ ∈ common, ∀ v : Word,
        groupHead g₁ <+: v → groupHead g₂ <+: v → g₁ = g₂)
    (s : PrefixCacheState) (w : Word) (d : Bitmap) (hcur : curOk common s)
    (p : Word) :
    unionAt (stepWord common s w d) p =
      unionAt s p ∪
        if (∃ g ∈ common, p ∈ g) ∧ p.isPrefixOf w then d else ∅ := by
  have hstep : stepWord common s w d = insertIntoCache (selectGroup common s w) w d := rfl
  have hsel : unionAt (selectGroup common s w) p = unionAt s p :=
    unionAt_selectGroup common s w p
  rw [hstep]
  cases hc : (selectGroup common s w).cur with
  | none =>
      rw [unionAt_insertIntoCache_none _ _ _ _ hc, hsel]
      have hfalse : ¬ ((∃ g ∈ common, p ∈ g) ∧ p.isPrefixOf w) := by
        rintro ⟨⟨g, hg, hpg⟩, hpw⟩
        have h1 : groupHead g <+: p := hhead g hg p hpg
        have h2 : groupHead g <+: w := h1.trans (prefixOf_iff.mp hpw)
        exact selectGroup_cur_none common s w hc g hg (prefixOf_iff.mpr h2)
      rw [if_neg hfalse, Finset.union_empty]
  | some g =>
      obtain ⟨hgmem, hgw⟩ := selectGroup_cur_some common s w g hcur hc
      rw [unionAt_insertIntoCache_some _ _ _ _ _ hc, hsel]
      have hiff : (p ∈ g ∧ p.isPrefixOf w = true) ↔
          ((∃ g' ∈ common, p ∈ g') ∧ p.isPrefixOf w = true) := by
        constructor
        · rintro ⟨hpg, hpw⟩
          exact ⟨⟨g, hgmem, hpg⟩, hpw⟩
        · rintro ⟨⟨g', hg', hpg'⟩, hpw⟩
          refine ⟨?_, hpw⟩
          have h1 : groupHead g' <+: w :=
            (hhead g' hg' p hpg').trans (prefixOf_iff.mp hpw)
          have h2 : groupHead g <+: w := prefixOf_iff.mp hgw
          have hgg : g' = g := hsep g' hg' g hgmem w h1 h2
          exact hgg ▸ hpg'
      rw [if_congr hiff rfl rfl]

lemma unionAt_runWords (common : List (List Word))
    (hhead : ∀ g ∈ common, ∀ q ∈ g, groupHead g <+: q)
    (hsep : ∀ g₁ ∈ common, ∀ g₂ ∈ common, ∀ v : Word,
        groupHead g₁ <+: v → groupHead g₂ <+: v → g₁ = g₂) :
    ∀ (batch : List (Word × Bitmap)) (s : PrefixCacheState), curOk common s →
      ∀ p : Word,
        unionAt (runWords common batch s) p =
          unionAt s p ∪
            if ∃ g ∈ common, p ∈ g then batchCoveredUnion batch p else ∅ := by
  intro batch
  induction batch with
  | nil =>
      intro s hs p
      simp [runWords, batchCoveredUnion]
  | cons wd rest ih =>
      intro s hs p
      obtain ⟨w, d⟩ := wd
      rw [runWords, ih (stepWord common s w d) (stepWord_curOk common s w d hs) p,
        unionAt_stepWord common hhead hsep s w d hs p]
      by_cases hg : ∃ g ∈ common, p ∈ g
      · by_cases hw : p.isPrefixOf w = true
        · have hw' : p <+: w := prefixOf_iff.mp hw
          simp [batchCoveredUnion, hg, hw, hw', Finset.union_assoc]
        · have hw' : ¬ p <+: w := fun hh => hw (prefixOf_iff.mpr hh)
          simp [batchCoveredUnion, hg, hw, hw']
      · simp [batchCoveredUnion, hg]

lemma loopSorter_eq (common : List (List Word))
    (hhead : ∀ g ∈ common, ∀ q ∈ g, groupHead g <+: q)
    (hsep : ∀ g₁ ∈ common, ∀ g₂ ∈ common, ∀ v : Word,
        groupHead g₁ <+: v → groupHead g₂ <+: v → g₁ = g₂)
    (batch : List (Word × Bitmap)) (p : Word) :
    loopSorter common batch p =
      if ∃ g ∈ common, p ∈ g then batchCoveredUnion batch p else ∅ := by
  have h0 : curOk common emptyPCS := by
    intro g hg
    simp [emptyPCS] at hg
  have h1 : loopSorter common batch p = unionAt (runWords common batch emptyPCS) p := rfl
  rw [h1, unionAt_runWords common hhead hsep batch emptyPCS h0 p]
  simp [unionAt, emptyPCS]

lemma newPrefixesPass_eq (words : Finset Word) (wd : Word → Bitmap) :
    ∀ (l : List Word) (sorter : Word → Bitmap) (p : Word),
      newPrefixesPass l words wd sorter p =
        sorter p ∪ if p ∈ l then coveredUnion words wd p else ∅ := by
  intro l
  induction l with
  | nil =>
      intro sorter p
      simp [newPrefixesPass]
  | cons q rest ih =>
      intro sorter p
      rw [newPrefixesPass, ih]
      by_cases hpq : p = q
      · subst hpq
        by_cases hr : p ∈ rest
        · simp [hr, Finset.union_assoc, Finset.union_self]
        · simp [hr]
      · simp [hpq, List.mem_cons]

lemma mem_batchCoveredUnion {x : ℕ} {batch : List (Word × Bitmap)} {p : Word} :
    x ∈ batchCoveredUnion batch p ↔
      ∃ e ∈ batch, p <+: e.1 ∧ x ∈ e.2 := by
  induction batch with
  | nil => simp [batchCoveredUnion]
  | cons e rest ih =>
      have hstep : batchCoveredUnion (e :: rest) p =
          if p.isPrefixOf e.1 = true then e.2 ∪ batchCoveredUnion rest p
          else batchCoveredUnion rest p := rfl
      by_cases h : p <+: e.1
      · rw [hstep, if_pos (prefixOf_iff.mpr h), Finset.mem_union, ih]
        constructor
        · rintro (hx | ⟨e', he', hpe', hx⟩)
          · exact ⟨e, List.mem_cons_self _ _, h, hx⟩
          · exact ⟨e', List.mem_cons_of_mem _ he', hpe', hx⟩
        · rintro ⟨e', he', hpe', hx⟩
          rcases List.mem_cons.mp he' with rfl | he'
          · exact Or.inl hx
          · exact Or.inr ⟨e', he', hpe', hx⟩
      · rw [hstep, if_neg (fun hh => h (prefixOf_iff.mp hh)), ih]
        constructor
        · rintro ⟨e', he', hpe', hx⟩
          exact ⟨e', List.mem_cons_of_mem _ he', hpe', hx⟩
        · rintro ⟨e', he', hpe', hx⟩
          rcases List.mem_cons.mp he' with rfl | he'
          · exact absurd hpe' h
          · exact ⟨e', he', hpe', hx⟩

lemma mem_batchLookup {x : ℕ} {batch : List (Word × Bitmap)} {w : Word} :
    x ∈ batchLookup batch w ↔ ∃ e ∈ batch, e.1 = w ∧ x ∈ e.2 := by
  induction batch with
  | nil => simp [batchLookup]
  | cons e rest ih =>
      have hstep : batchLookup (e :: rest) w =
          if e.1 = w then e.2 ∪ batchLookup rest w else batchLookup rest w := rfl
      by_cases h : e.1 = w
      · rw [hstep, if_pos h, Finset.mem_union, ih]
        constructor
        · rintro (hx | ⟨e', he', hw', hx⟩)
          · exact ⟨e, List.mem_cons_self _ _, h, hx⟩
          · exact ⟨e', List.mem_cons_of_mem _ he', hw', hx⟩
        · rintro ⟨e', he', hw', hx⟩
          rcases List.mem_cons.mp he' with rfl | he'
          · exact Or.inl hx
          · exact Or.inr ⟨e', he', hw', hx⟩
      · rw [hstep, if_neg h, ih]
        constructor
        · rintro ⟨e', he', hw', hx⟩
          exact ⟨e', List.mem_cons_of_mem _ he', hw', hx⟩
        · rintro ⟨e', he', hw', hx⟩
          rcases List.mem_cons.mp he' with rfl | he'
          · exact absurd hw' h
          · exact ⟨e', he', hw', hx⟩

lemma mem_coveredUnion {x : ℕ} {words : Finset Word} {f : Word → Bitmap}
    {p : Word} :
    x ∈ coveredUnion words f p ↔ ∃ w ∈ words, p <+: w ∧ x ∈ f w := by
  simp [coveredUnion, Finset.mem_sup, Finset.mem_filter, and_assoc]

lemma coveredUnion_merge {words : Finset Word} {oldWd wd : Word → Bitmap}
    {batch : List (Word × Bitmap)}
    (hwd : ∀ w, wd w = oldWd w ∪ batchLookup batch w)
    (hsupp : ∀ w, wd w ≠ ∅ → w ∈ words) (p : Word) :
    coveredUnion words oldWd p ∪ batchCoveredUnion batch p =
      coveredUnion words wd p := by
  ext x
  simp only [Finset.mem_union, mem_coveredUnion, mem_batchCoveredUnion]
  constructor
  · rintro (⟨w, hw, hpw, hx⟩ | ⟨e, he, hpe, hx⟩)
    · exact ⟨w, hw, hpw, by rw [hwd w]; exact Finset.mem_union_left _ hx⟩
    · have hxw : x ∈ wd e.1 := by
        rw [hwd e.1]
        exact Finset.mem_union_right _ (mem_batchLookup.mpr ⟨e, he, rfl, hx⟩)
      have hne : wd e.1 ≠ ∅ := fun hh => by
        rw [hh] at hxw
        exact absurd hxw (Finset.not_mem_empty x)
      exact ⟨e.1, hsupp e.1 hne, hpe, hxw⟩
  · rintro ⟨w, hw, hpw, hx⟩
    rw [hwd w, Finset.mem_union] at hx
    rcases hx with hx | hx
    · exact Or.inl ⟨w, hw, hpw, hx⟩
    · obtain ⟨e, he, hew, hx⟩ := mem_batchLookup.mp hx
      exact Or.inr ⟨e, he, by rw [hew]; exact hpw, hx⟩

/-- Claim C1: after the prefix-derivative update performed by
`WordPrefixDocids::execute` at the end of an indexing batch
(`IndexDocuments::execute_prefix_databases`), for every prefix `p` retained in
the words-prefixes FST (`curFst`), the entry `word_prefix_docids[p]` equals the
union of `word_docids[w]` over all words `w` of the word-docids table starting
with `p`.  The hypotheses state what `execute_prefix_databases` establishes:
`newPrefixes` and the deleted set are the FST differences, `common` is the
grouping of the intersection by first character (each group is headed by a
prefix of all its members, and two groups never share a prefix of the same
word), the word-docids table `wd` is the old table `oldWd` merged with this
batch's `new_word_docids` stream by bitmap union, `words` supports `wd`, and
the target table satisfied the same invariant for the previous FST. -/
theorem wordPrefixDocids_prefix_consistency
    (prevFst curFst : Finset Word) (common : List (List Word))
    (newPrefixes : List Word) (tbl oldWd wd : Word → Bitmap)
    (words : Finset Word) (batch : List (Word × Bitmap))
    (hhead : ∀ g ∈ common, ∀ q ∈ g, groupHead g <+: q)
    (hsep : ∀ g₁ ∈ common, ∀ g₂ ∈ common, ∀ v : Word,
        groupHead g₁ <+: v → groupHead g₂ <+: v → g₁ = g₂)
    (hcommon : ∀ q : Word, (∃ g ∈ common, q ∈ g) ↔ q ∈ prevFst ∩ curFst)
    (hnew : ∀ q : Word, q ∈ newPrefixes ↔ q ∈ curFst \ prevFst)
    (hwd : ∀ w, wd w = oldWd w ∪ batchLookup batch w)
    (hsupp : ∀ w, wd w ≠ ∅ → w ∈ words)
    (hinv : ∀ q ∈ prevFst, tbl q = coveredUnion words oldWd q)
    (htbl : ∀ q : Word, tbl q ≠ ∅ → q ∈ prevFst)
    (p : Word) (hp : p ∈ curFst) :
    wordPrefixDocidsExecute tbl batch newPrefixes common (prevFst \ curFst)
        words wd p = coveredUnion words wd p := by
  have hpdel : p ∉ prevFst \ curFst := fun h => (Finset.mem_sdiff.mp h).2 hp
  have hexec : wordPrefixDocidsExecute tbl batch newPrefixes common
      (prevFst \ curFst) words wd p =
        deletePass tbl (prevFst \ curFst) p ∪
          newPrefixesPass newPrefixes words wd (loopSorter common batch) p := rfl
  rw [hexec, newPrefixesPass_eq words wd newPrefixes (loopSorter common batch) p]
  have hdp : deletePass tbl (prevFst \ curFst) p = tbl p := by
    simp [deletePass, hpdel]
  rw [hdp, loopSorter_eq common hhead hsep batch p]
  by_cases hprev : p ∈ prevFst
  · have hmemG : ∃ g ∈ common, p ∈ g :=
      (hcommon p).mpr (Finset.mem_inter.mpr ⟨hprev, hp⟩)
    have hnotnew : p ∉ newPrefixes := fun h =>
      (Finset.mem_sdiff.mp ((hnew p).mp h)).2 hprev
    rw [if_pos hmemG, if_neg hnotnew, Finset.union_empty, hinv p hprev]
    exact coveredUnion_merge hwd hsupp p
  · have hmemG : ¬ ∃ g ∈ common, p ∈ g := fun h =>
      hprev (Finset.mem_inter.mp ((hcommon p).mp h)).1
    have hnewp : p ∈ newPrefixes :=
      (hnew p).mpr (Finset.mem_sdiff.mpr ⟨hp, hprev⟩)
    have htblp : tbl p = ∅ := by
      by_contra h
      exact hprev (htbl p h)
    rw [if_neg hmemG, if_pos hnewp, htblp]
    simp

/-- Claim C7: during the prefix-derivative update, every key of the
word-prefix-docids table whose prefix is in the deleted-prefixes set is
removed before the sorter is drained: the deletion pass zeroes the entry, and
the final table at such a key holds only what the sorter contributes. -/
theorem wordPrefixDocids_removes_deleted_keys
    (tbl : Word → Bitmap) (batch : List (Word × Bitmap))
    (newPrefixes : List Word) (common : List (List Word))
    (delPrefixes : Finset Word) (words : Finset Word) (wd : Word → Bitmap)
    (p : Word) (hp : p ∈ delPrefixes) :
    deletePass tbl delPrefixes p = ∅ ∧
    wordPrefixDocidsExecute tbl batch newPrefixes common delPrefixes words wd p
      = newPrefixesPass newPrefixes words wd (loopSorter common batch) p := by
  constructor
  · simp [deletePass, hp]
  · simp [wordPrefixDocidsExecute, sorterIntoLmdbDatabase, deletePass, hp]

theorem wordPrefixDocids_prefix_consistency_witness :
    (['a'] : Word) ∈ c1Cur ∧
    wordPrefixDocidsExecute c1Tbl c1Batch [['b']] [[['a']]] (c1Prev \ c1Cur)
        c1Words c1Wd ['a'] = coveredUnion c1Words c1Wd ['a'] := by
  refine ⟨by decide, ?_⟩
  refine wordPrefixDocids_prefix_consistency c1Prev c1Cur [[['a']]] [['b']]
    c1Tbl c1OldWd c1Wd c1Words c1Batch ?_ ?_ ?_ ?_ (fun w => rfl) ?_ ?_ ?_
    ['a'] (by decide)
  · decide
  · intro g₁ h₁ g₂ h₂ v _ _
    simp only [List.mem_singleton] at h₁ h₂
    rw [h₁, h₂]
  · intro q
    constructor
    · rintro ⟨g, hg, hq⟩
      simp only [List.mem_singleton] at hg
      subst hg
      simp only [List.mem_singleton] at hq
      subst hq
      decide
    · intro hq
      have : q = ['a'] := by
        have h1 := (Finset.mem_inter.mp hq).1
        simpa [c1Prev] using h1
      subst this
      exact ⟨[['a']], List.mem_singleton.mpr rfl, List.mem_singleton.mpr rfl⟩
  · intro q
    constructor
    · intro hq
      have : q = ['b'] := by simpa using hq
      subst this
      decide
    · intro hq
      have h1 := (Finset.mem_sdiff.mp hq).1
      have h2 := (Finset.mem_sdiff.mp hq).2
      have : q = ['b'] := by
        rcases Finset.mem_insert.mp h1 with h | h
        · exact absurd (by simpa [c1Prev] using h) h2
        · simpa using h
      subst this
      exact List.mem_singleton.mpr rfl
  · intro w h
    by_cases h1 : w = ['a', 'b']
    · subst h1; decide
    · by_cases h2 : w = ['b', 'c']
      · subst h2; decide
      · exfalso
        apply h
        have h1' : ¬ (['a', 'b'] : Word) = w := fun hh => h1 hh.symm
        have h2' : ¬ (['b', 'c'] : Word) = w := fun hh => h2 hh.symm
        simp [c1Wd, c1OldWd, c1Batch, batchLookup, h1, h1', h2']
  · decide
  · intro q h
    by_cases hq : q = ['a']
    · subst hq; decide
    · exfalso
      apply h
      simp [c1Tbl, hq]

theorem wordPrefixDocids_removes_deleted_keys_witness :
    (['x'] : Word) ∈ ({['x']} : Finset Word) ∧
    (deletePass (fun q => if q = ['x'] then {7} else ∅) {['x']} ['x'] = ∅ ∧
      wordPrefixDocidsExecute (fun q => if q = ['x'] then {7} else ∅) [] [] []
          {['x']} ∅ (fun _ => ∅) ['x'] =
        newPrefixesPass [] ∅ (fun _ => ∅) (loopSorter [] []) ['x']) :=
  ⟨by decide,
    wordPrefixDocids_removes_deleted_keys _ [] [] [] {['x']} ∅ _ ['x']
      (by decide)⟩

/-- Counterexample to claim C2: faceting does not run last.  In the batch
stage order of the source, the `Facets` update runs before the prefix FST
rebuild and before the prefix-derivative updaters, so the claimed placement
"faceting runs last, after the prefix tables are updated" is false. -/
theorem executeStages_faceting_not_last :
    List.indexOf IndexingStage.faceting executeStages <
      List.indexOf IndexingStage.wordPrefixDocidsUpdate executeStages ∧
    ¬ (List.indexOf IndexingStage.wordPrefixDocidsUpdate executeStages <
        List.indexOf IndexingStage.faceting executeStages) := by decide

/-- Claim C2 (amended): within one indexing batch the stages run in the order
transform, then extraction, then typed-chunk writing, then faceting, then the
prefix FST rebuild, then the prefix-derivative updaters (word-prefix-docids,
word-prefix-pair-proximity, word-prefix-position); faceting runs before the
prefix tables are updated, not after them. -/
theorem executeStages_order :
    List.indexOf IndexingStage.transform executeStages <
      List.indexOf IndexingStage.extraction executeStages ∧
    List.indexOf IndexingStage.extraction executeStages <
      List.indexOf IndexingStage.typedChunkWrite executeStages ∧
    List.indexOf IndexingStage.typedChunkWrite executeStages <
      List.indexOf IndexingStage.faceting executeStages ∧
    List.indexOf IndexingStage.faceting executeStages <
      List.indexOf IndexingStage.wordsPrefixesFstBuild executeStages ∧
    List.indexOf IndexingStage.wordsPrefixesFstBuild executeStages <
      List.indexOf IndexingStage.wordPrefixDocidsUpdate executeStages ∧
    List.indexOf IndexingStage.wordPrefixDocidsUpdate executeStages <
      List.indexOf IndexingStage.wordPrefixPairProximityUpdate executeStages ∧
    List.indexOf IndexingStage.wordPrefixPairProximityUpdate executeStages <
      List.indexOf IndexingStage.wordPrefixPositionUpdate executeStages := by
  decide

/-- Claim C3: `ClearDocuments::execute` empties every posting table, resets
the words FST, prefixes FST, external document ids, documents-ids bitmap,
field distribution, geo r-tree, geo-faceted bitmap and the per-field
faceted-document bitmaps of the faceted fields, and returns the number of
documents that were in the index before the clear. -/
theorem clearDocuments_clears_everything (now : ℕ) (i : Index) :
    (clearDocumentsExecute now i).1 = indexNumberOfDocuments i ∧
    (clearDocumentsExecute now i).2.wordDocids = [] ∧
    (clearDocumentsExecute now i).2.wordPrefixDocidsTable = [] ∧
    (clearDocumentsExecute now i).2.docidWordPositions = [] ∧
    (clearDocumentsExecute now i).2.wordPairProximityDocids = [] ∧
    (clearDocumentsExecute now i).2.wordPrefixPairProximityDocids = [] ∧
    (clearDocumentsExecute now i).2.wordPositionDocids = [] ∧
    (clearDocumentsExecute now i).2.fieldIdWordCountDocids = [] ∧
    (clearDocumentsExecute now i).2.wordPrefixPositionDocids = [] ∧
    (clearDocumentsExecute now i).2.facetIdF64Docids = [] ∧
    (clearDocumentsExecute now i).2.facetIdStringDocids = [] ∧
    (clearDocumentsExecute now i).2.fieldIdDocidFacetF64s = [] ∧
    (clearDocumentsExecute now i).2.fieldIdDocidFacetStrings = [] ∧
    (clearDocumentsExecute now i).2.documents = [] ∧
    (clearDocumentsExecute now i).2.wordsFst = ∅ ∧
    (clearDocumentsExecute now i).2.wordsPrefixesFst = ∅ ∧
    (clearDocumentsExecute now i).2.externalDocumentsIds = [] ∧
    (clearDocumentsExecute now i).2.documentsIds = ∅ ∧
    (clearDocumentsExecute now i).2.fieldDistribution = [] ∧
    (clearDocumentsExecute now i).2.geoRtree = none ∧
    (clearDocumentsExecute now i).2.geoFacetedDocumentsIds = none ∧
    (∀ f ∈ i.facetedFields,
      (clearDocumentsExecute now i).2.numberFacetedDocumentsIds f = ∅ ∧
      (clearDocumentsExecute now i).2.stringFacetedDocumentsIds f = ∅) := by
  refine ⟨rfl, rfl, rfl, rfl, rfl, rfl, rfl, rfl, rfl, rfl, rfl, rfl, rfl,
    rfl, rfl, rfl, rfl, rfl, rfl, rfl, rfl, ?_⟩
  intro f hf
  constructor
  · simp [clearDocumentsExecute, hf]
  · simp [clearDocumentsExecute, hf]

/-- Claim C8: `ClearDocuments::execute` leaves the fields-id map unchanged. -/
theorem clearDocuments_preserves_fieldsIdsMap (now : ℕ) (i : Index) :
    (clearDocumentsExecute now i).2.fieldsIdsMap = i.fieldsIdsMap :=
  rfl

theorem clearDocuments_clears_everything_witness :
    (2 : ℕ) ∈ sampleIndex.facetedFields ∧
    (clearDocumentsExecute 1 sampleIndex).1 = 3 ∧
    (clearDocumentsExecute 1 sampleIndex).2.numberFacetedDocumentsIds 2 = ∅ := by
  have h := clearDocuments_clears_everything 1 sampleIndex
  have hmem : (2 : ℕ) ∈ sampleIndex.facetedFields := by decide
  refine ⟨hmem, ?_, (h.2.2.2.2.2.2.2.2.2.2.2.2.2.2.2.2.2.2.2.2.2 2 hmem).1⟩
  rw [h.1]
  decide

/-- Claim C4: in Replace mode, inserting a batch containing a document whose
external id already exists replaces that document — the internal id is
reused, the old record is discarded, the total number of documents is
unchanged, and the document carries only the new fields. -/
theorem replace_existing_document (s : IndexState) (d : SimpleDoc) (i : ℕ)
    (hl : List.lookup d.externalId s.externalIds = some i)
    (hi : i ∈ s.documentsIds) :
    (applyBatch .replaceDocuments s [d]).documentsIds = s.documentsIds ∧
    stateNumberOfDocuments (applyBatch .replaceDocuments s [d]) =
      stateNumberOfDocuments s ∧
    (applyBatch .replaceDocuments s [d]).documents i = some d.fields := by
  have hout : transformBatch .replaceDocuments s [d] =
      ⟨∅, {i}, s.externalIds, [(i, d.fields)], 1⟩ := by
    simp [transformBatch, dedupBatch, transformRun, transformStep, hl]
  have hids : s.documentsIds ∪ ∅ ∪ {i} = s.documentsIds := by
    rw [Finset.union_empty]
    exact Finset.union_eq_left.mpr (Finset.singleton_subset_iff.mpr hi)
  have happly : applyBatch .replaceDocuments s [d] =
      ⟨s.externalIds, s.documentsIds ∪ ∅ ∪ {i},
        installRecords
          (deleteDocumentsPass s.documents {i}) [(i, d.fields)]⟩ := by
    rw [applyBatch, hout]
    simp [executeRawS, Finset.singleton_ne_empty]
  refine ⟨by rw [happly, hids], by rw [stateNumberOfDocuments, happly, hids]; rfl, ?_⟩
  rw [happly]
  simp [installRecords]

theorem replace_existing_document_witness :
    List.lookup "1" c4State.externalIds = some 0 ∧
    (0 : ℕ) ∈ c4State.documentsIds ∧
    stateNumberOfDocuments c4State = 3 ∧
    (applyBatch .replaceDocuments c4State
        [⟨"1", [("name", "updated kevin")]⟩]).documentsIds =
      c4State.documentsIds ∧
    stateNumberOfDocuments (applyBatch .replaceDocuments c4State
        [⟨"1", [("name", "updated kevin")]⟩]) =
      stateNumberOfDocuments c4State ∧
    (applyBatch .replaceDocuments c4State
        [⟨"1", [("name", "updated kevin")]⟩]).documents 0 =
      some [("name", "updated kevin")] := by
  have h := replace_existing_document c4State ⟨"1", [("name", "updated kevin")]⟩
    0 (by decide) (by decide)
  exact ⟨by decide, by decide, by decide, h.1, h.2.1, h.2.2⟩

/-- Claim C9: `add_documents` on an empty batch returns 0 and leaves the
builder unchanged, and when no documents were added (`added_documents = 0`)
`execute` performs no index mutation and returns indexed_documents = 0 with
the count already stored in the index. -/
theorem execute_without_documents_is_noop (b : DocumentsBuilder)
    (s : IndexState) :
    addDocuments b [] = (b, 0) ∧
    (b.addedDocuments = 0 →
      builderExecute b s = ((0, stateNumberOfDocuments s), s)) := by
  constructor
  · rfl
  · intro h
    rw [builderExecute, if_pos h]

theorem execute_without_documents_is_noop_witness :
    (DocumentsBuilder.mk .replaceDocuments 0 []).addedDocuments = 0 ∧
    (addDocuments (DocumentsBuilder.mk .replaceDocuments 0 []) [] =
      (DocumentsBuilder.mk .replaceDocuments 0 [], 0) ∧
    builderExecute (DocumentsBuilder.mk .replaceDocuments 0 []) c4State =
      ((0, stateNumberOfDocuments c4State), c4State)) := by
  have h := execute_without_documents_is_noop
    (DocumentsBuilder.mk .replaceDocuments 0 []) c4State
  exact ⟨rfl, h.1, h.2 rfl⟩

/-- Claim C5: an extraction failure is serialized as a single `Err` message on
the worker-to-writer channel, and the writer loop returns the first non-OK
result received without installing any further typed chunk: whatever follows
the first `Err` message, the result of draining is that error. -/
theorem drainChannel_returns_first_error {S E C : Type}
    (install : S → C → S) (st : S) (e : E) (oks : List C)
    (rest : List (Except E C)) :
    extractionMessages (Except.error e : Except E (List C)) =
      [Except.error e] ∧
    drainChannel install st
        (oks.map Except.ok ++ Except.error e :: rest) =
      Except.error e := by
  refine ⟨rfl, ?_⟩
  induction oks generalizing st with
  | nil => rfl
  | cons c cs ih =>
      rw [List.map_cons, List.cons_append, drainChannel]
      exact ih (install st c)

/-- Counterexample to claim C6: a no-space-left-on-device store failure is not
reported as the NoSpaceLeftOnDevice user error; `From<io::Error>` wraps it
verbatim as `Error::IoError`, so `HeedError::Io(ENOSPC)` converts to an io
error, not to a user error. -/
theorem errorFromHeed_enospc_not_user_error :
    errorFromHeed (.io .noSpaceLeftOnDevice) =
      MilliError.ioError .noSpaceLeftOnDevice ∧
    errorFromHeed (.io .noSpaceLeftOnDevice) ≠
      MilliError.userError .noSpaceLeftOnDevice := by
  decide

/-- Claim C6 (amended): a store map-full error is reported as the
MaxDatabaseSizeReached user error and an invalid store file as the
InvalidStoreFile user error, while every other store (MDB) error is
classified as an internal store error; an io error — including
no-space-left-on-device — is propagated verbatim as an IoError, not converted
to the NoSpaceLeftOnDevice user error. -/
theorem errorFromHeed_classification :
    errorFromHeed (.mdb .mapFull) =
      MilliError.userError .maxDatabaseSizeReached ∧
    errorFromHeed (.mdb .invalid) = MilliError.userError .invalidStoreFile ∧
    (∀ m : MdbError, m ≠ .mapFull → m ≠ .invalid →
      errorFromHeed (.mdb m) = MilliError.internalError (.store m)) ∧
    (∀ e : IoErrorKind, errorFromHeed (.io e) = MilliError.ioError e) := by
  refine ⟨rfl, rfl, ?_, fun e => rfl⟩
  intro m h1 h2
  cases m with
  | mapFull => exact absurd rfl h1
  | invalid => exact absurd rfl h2
  | notFound => rfl
  | corrupted => rfl
  | panicked => rfl
  | badTxn => rfl

theorem errorFromHeed_classification_witness :
    (MdbError.corrupted ≠ MdbError.mapFull ∧
      MdbError.corrupted ≠ MdbError.invalid) ∧
    errorFromHeed (.mdb .corrupted) =
      MilliError.internalError (.store .corrupted) := by
  refine ⟨⟨by decide, by decide⟩, ?_⟩
  exact errorFromHeed_classification.2.2.1 MdbError.corrupted (by decide)
    (by decide)

/-- Claim C10: geo extraction is enabled only when `_geo` exists in the
fields-id map and is sortable or filterable; otherwise the geo field id is
None and no geo point is extracted even for documents containing a `_geo`
field. -/
theorem geoFieldId_gating (m : List (String × ℕ))
    (sortableFields filterableFields : Finset ℕ) (g : ℕ)
    (doc : List (ℕ × String)) :
    (geoFieldIdOf m sortableFields filterableFields = some g ↔
      (List.lookup "_geo" m = some g ∧
        (g ∈ sortableFields ∨ g ∈ filterableFields))) ∧
    extractGeoPoint none doc = none := by
  refine ⟨?_, rfl⟩
  unfold geoFieldIdOf
  cases h : List.lookup "_geo" m with
  | none =>
      simp
  | some gfid =>
      by_cases hs : gfid ∈ sortableFields ∨ gfid ∈ filterableFields
      · simp only [if_pos hs]
        constructor
        · rintro hg
          have : gfid = g := by simpa using hg
          subst this
          exact ⟨rfl, hs⟩
        · rintro ⟨hg, _⟩
          have : gfid = g := by simpa using hg
          subst this
          rfl
      · simp only [if_neg hs]
        constructor
        · intro hg
          exact absurd hg (by simp)
        · rintro ⟨hg, hsf⟩
          have : gfid = g := by simpa using hg
          subst this
          exact absurd hsf hs
